import Mathlib

/-!
Verification of the ConFindr contamination-detection program
(`alignment_confindr.py`): a shallow embedding of its pure algorithmic
core, followed by theorems settling the specification claims.

Python strings are modelled as Lean `String`s; Python's single-character
`str.split`, substring test (`in`), slicing `[:-1]`, and `str.rstrip`
are modelled by the executable helpers below, all written with
structural recursion so that concrete instances evaluate by `decide`.
-/

namespace ConFindr

/-- Model of Python `str.split(sep)` for a single-character separator,
working on the character list: always returns at least one (possibly
empty) chunk, splitting at every occurrence of `sep`. -/
def splitCharList (sep : Char) : List Char → List (List Char)
  | [] => [[]]
  | c :: rest =>
    let r := splitCharList sep rest
    if c = sep then
      [] :: r
    else
      match r with
      | a :: as => (c :: a) :: as
      | [] => [[c]]

/-- Model of Python `s.split(sep)` for a one-character separator `sep`. -/
def pySplit (sep : Char) (s : String) : List String :=
  (splitCharList sep s.data).map List.asString

/-- Model of Python's substring test `sub in s` on character lists:
`sub` occurs contiguously inside `l`. -/
def infixB (sub : List Char) : List Char → Bool
  | [] => sub.isEmpty
  | c :: rest => sub.isPrefixOf (c :: rest) || infixB sub rest

/-- Model of Python `sub in s` for strings. -/
def pyIn (sub s : String) : Bool := infixB sub.data s.data

/-- Model of Python `s[:-1]` on a string: drop the last character
(identity on the empty string). -/
def pyDropLastChar (s : String) : String := s.data.dropLast.asString

/-- Model of Python `s.rstrip()`: remove trailing whitespace. -/
def pyRstrip (s : String) : String :=
  ((s.data.reverse.dropWhile Char.isWhitespace).reverse).asString

/-- Model of Python's first-seen-order deduplicating accumulation
`if x not in acc: acc.append(x)`, folded over a list. -/
def pyDedup {α : Type} [DecidableEq α] (l : List α) : List α :=
  l.foldl (fun acc g => if g ∈ acc then acc else acc ++ [g]) []

/-- Model of `os.path.join(a, b)` for a relative `b` and a non-slash
terminated `a`, the only shapes the program produces. -/
def pyPathJoin (a b : String) : String := a ++ "/" ++ b

/-- Insertion of a natural number into an ascending list, the building
block of the sorting model. -/
def insertSorted (x : ℕ) : List ℕ → List ℕ
  | [] => [x]
  | y :: ys => if x ≤ y then x :: y :: ys else y :: insertSorted x ys

/-- Model of Python `sorted` on a list of nonnegative integers:
insertion sort, producing the ascending reordering. -/
def pySortNat (l : List ℕ) : List ℕ := l.foldr insertSorted []

/-- Model of Python `statistics.median` on a nonempty list of
nonnegative integers: middle element of the sorted list for odd length,
mean of the two middle elements for even length, as a rational. -/
def pyMedian (l : List ℕ) : ℚ :=
  let s := pySortNat l
  let n := s.length
  if n % 2 = 1 then (s.getD (n / 2) 0 : ℚ)
  else ((s.getD (n / 2 - 1) 0 : ℚ) + (s.getD (n / 2) 0 : ℚ)) / 2

/-- `write_output` (src/alignment_confindr.py:669-682), contamination
verdict only: an empty evidence list is first coerced to `[0]`; the
sample is contaminated when the median evidence exceeds 2, or the genus
string splits on `:` into more than one part, or the maximum k-mer
count exceeds 45000. -/
def write_output_contaminated (snv_list : List ℕ) (genus : String) (max_kmers : ℕ) : Bool :=
  let snv := if snv_list.isEmpty then snv_list ++ [0] else snv_list
  if pyMedian snv > 2 ∨ (pySplit ':' genus).length > 1 ∨ max_kmers > 45000 then
    true
  else
    false

/-- Canonicalization applied to each screened genus label
(src/alignment_confindr.py:321-322): `Shigella` becomes `Escherichia`. -/
def canonGenus (g : String) : String := if g = "Shigella" then "Escherichia" else g

/-- `find_cross_contamination` (src/alignment_confindr.py:300-334),
modelled from the genus labels extracted from the mash screen report
(`item.query_id.split('/')[-3]` for each report line): deduplicate the
canonicalized labels preserving first-seen order, then encode the result
as `NA` / the single genus / a `:`-joined list built by appending
`genus + ':'` and dropping the final character. -/
def find_cross_contamination (screen_output : List String) : String :=
  let genera_present := screen_output.foldl
    (fun acc item =>
      let mash_genus := canonGenus item
      if mash_genus ∈ acc then acc else acc ++ [mash_genus]) []
  if genera_present.length = 1 then genera_present.getD 0 ""
  else if genera_present.length = 0 then "NA"
  else
    let tmpstr := genera_present.foldl (fun t mash_genus => t ++ mash_genus ++ ":") ""
    pyDropLastChar tmpstr

/-- `find_cross_contamination_unpaired` (src/alignment_confindr.py:337-371):
identical genus-classification logic to the paired variant, modelled from
the extracted genus labels. -/
def find_cross_contamination_unpaired (screen_output : List String) : String :=
  let genera_present := screen_output.foldl
    (fun acc item =>
      let mash_genus := canonGenus item
      if mash_genus ∈ acc then acc else acc ++ [mash_genus]) []
  if genera_present.length = 1 then genera_present.getD 0 ""
  else if genera_present.length = 0 then "NA"
  else
    let tmpstr := genera_present.foldl (fun t mash_genus => t ++ mash_genus ++ ":") ""
    pyDropLastChar tmpstr

/-- Specification-side `:`-join of a list of strings. -/
def colonJoin : List String → String
  | [] => ""
  | [g] => g
  | g :: rest => g ++ ":" ++ colonJoin rest

section StringLemmas

theorem asString_data (l : List Char) : (List.asString l).data = l := rfl

theorem data_asString (s : String) : s.data.asString = s := by
  cases s; rfl

/-- The right fold describing what the `tmpstr` loop appends in total. -/
def joinAllColon (l : List String) : String :=
  l.foldr (fun g r => g ++ ":" ++ r) ""

theorem foldl_append_colon (l : List String) :
    ∀ acc : String, l.foldl (fun t g => t ++ g ++ ":") acc = acc ++ joinAllColon l := by
  induction l with
  | nil =>
    intro acc
    apply String.ext
    simp [joinAllColon, String.data_append]
  | cons g rest ih =>
    intro acc
    apply String.ext
    simp only [List.foldl_cons, ih, joinAllColon, List.foldr_cons, String.data_append]
    simp [joinAllColon]

theorem joinAllColon_cons (g : String) (rest : List String) :
    joinAllColon (g :: rest) = g ++ ":" ++ joinAllColon rest := rfl

theorem joinAllColon_ne_empty_data (g : String) (rest : List String) :
    (joinAllColon (g :: rest)).data ≠ [] := by
  rw [joinAllColon_cons]
  simp only [String.data_append]
  intro h
  simp [String.data] at h

theorem dropLast_joinAllColon (l : List String) (hl : l ≠ []) :
    pyDropLastChar (joinAllColon l) = colonJoin l := by
  induction l with
  | nil => exact absurd rfl hl
  | cons g rest ih =>
    cases rest with
    | nil =>
      apply String.ext
      simp [pyDropLastChar, joinAllColon, colonJoin, String.data_append, asString_data,
        String.data]
    | cons g2 rest2 =>
      apply String.ext
      have hne : (joinAllColon (g2 :: rest2)).data ≠ [] := joinAllColon_ne_empty_data g2 rest2
      have ihd := congrArg String.data (ih (by simp))
      simp only [pyDropLastChar, asString_data] at ihd ⊢
      rw [joinAllColon_cons]
      have hcj : colonJoin (g :: g2 :: rest2) = g ++ ":" ++ colonJoin (g2 :: rest2) := rfl
      rw [hcj]
      simp only [String.data_append]
      rw [List.dropLast_append_of_ne_nil _ hne, ihd]

end StringLemmas

/-- Membership in the first-seen dedup accumulation agrees with
membership in the source list. -/
theorem mem_dedup_fold {α : Type} [DecidableEq α] (l : List α) :
    ∀ acc : List α, ∀ x,
      (x ∈ l.foldl (fun acc g => if g ∈ acc then acc else acc ++ [g]) acc ↔
        x ∈ acc ∨ x ∈ l) := by
  induction l with
  | nil => intro acc x; simp
  | cons g rest ih =>
    intro acc x
    simp only [List.foldl_cons]
    by_cases hg : g ∈ acc
    · rw [if_pos hg, ih]
      constructor
      · rintro (h | h)
        · exact Or.inl h
        · exact Or.inr (List.mem_cons_of_mem _ h)
      · rintro (h | h)
        · exact Or.inl h
        · rcases List.mem_cons.mp h with rfl | h
          · exact Or.inl hg
          · exact Or.inr h
    · rw [if_neg hg, ih]
      constructor
      · rintro (h | h)
        · rcases List.mem_append.mp h with h | h
          · exact Or.inl h
          · simp at h
            exact Or.inr (h ▸ List.mem_cons_self _ _)
        · exact Or.inr (List.mem_cons_of_mem _ h)
      · rintro (h | h)
        · exact Or.inl (List.mem_append.mpr (Or.inl h))
        · rcases List.mem_cons.mp h with rfl | h
          · exact Or.inl (by simp)
          · exact Or.inr h

theorem empty_string_append (s : String) : "" ++ s = s := by
  apply String.ext
  simp [String.data_append]

theorem fused_fold_eq_pyDedup (labels : List String) :
    labels.foldl
      (fun acc item =>
        let mash_genus := canonGenus item
        if mash_genus ∈ acc then acc else acc ++ [mash_genus]) [] =
      pyDedup (labels.map canonGenus) := by
  simp [pyDedup, List.foldl_map]

/-- C2: the contamination classifier declares a sample contaminated
exactly when the evidence median exceeds 2, or the genus string has more
than one `:`-separated part, or the maximum k-mer count exceeds 45000;
the four concrete scenarios of the specification evaluate as stated. -/
theorem classifier_verdict :
    (∀ (snv_list : List ℕ) (genus : String) (max_kmers : ℕ),
      write_output_contaminated snv_list genus max_kmers = true ↔
        (2 < pyMedian (if snv_list.isEmpty then snv_list ++ [0] else snv_list)
          ∨ 1 < (pySplit ':' genus).length ∨ 45000 < max_kmers))
    ∧ write_output_contaminated [0, 0, 0] "Escherichia" 0 = false
    ∧ write_output_contaminated [3, 3, 3] "Escherichia" 0 = true
    ∧ (∀ (snv_list : List ℕ) (max_kmers : ℕ),
        write_output_contaminated snv_list "Escherichia:Salmonella" max_kmers = true)
    ∧ write_output_contaminated [0, 0, 0] "Escherichia" 50000 = true := by
  refine ⟨fun snv_list genus max_kmers => ?_, by decide, by decide,
    fun snv_list max_kmers => ?_, by decide⟩
  · simp only [write_output_contaminated]
    split
    · simp_all
    · simp_all
  · have h : 1 < (pySplit ':' "Escherichia:Salmonella").length := by decide
    simp [write_output_contaminated, h]

/-- C3: the genus screener returns `NA` on an empty label set, the bare
genus when exactly one distinct (canonicalized) genus is seen, and the
`:`-joined first-seen-order deduplication when more than one is seen;
`Shigella` is canonicalized to `Escherichia` before deduplication, so a
`Shigella` label always puts `Escherichia` in the result set. The
unpaired variant implements the identical classification. -/
theorem genus_screener_encoding :
    (find_cross_contamination_unpaired = find_cross_contamination)
    ∧ ∀ labels : List String,
      (labels = [] → find_cross_contamination labels = "NA")
      ∧ (∀ g, pyDedup (labels.map canonGenus) = [g] →
          find_cross_contamination labels = g)
      ∧ (2 ≤ (pyDedup (labels.map canonGenus)).length →
          find_cross_contamination labels = colonJoin (pyDedup (labels.map canonGenus)))
      ∧ ("Shigella" ∈ labels → "Escherichia" ∈ pyDedup (labels.map canonGenus)) := by
  refine ⟨rfl, fun labels => ⟨?_, ?_, ?_, ?_⟩⟩
  · rintro rfl
    rfl
  · intro g hdd
    simp only [find_cross_contamination, fused_fold_eq_pyDedup, hdd]
    rfl
  · intro hlen
    simp only [find_cross_contamination, fused_fold_eq_pyDedup]
    rw [if_neg (by omega), if_neg (by omega), foldl_append_colon, empty_string_append]
    exact dropLast_joinAllColon _ (by intro h; rw [h] at hlen; simp at hlen)
  · intro hmem
    have : "Escherichia" ∈ labels.map canonGenus := by
      refine List.mem_map.mpr ⟨"Shigella", hmem, rfl⟩
    exact (mem_dedup_fold _ [] _).mpr (Or.inr this)

/-- Closed witness for the genus-screener theorem at the concrete label
sequence `["Shigella", "Salmonella"]`. -/
theorem genus_screener_encoding_witness :
    find_cross_contamination ["Shigella", "Salmonella"] =
      colonJoin (pyDedup ((["Shigella", "Salmonella"]).map canonGenus))
    ∧ "Escherichia" ∈ pyDedup ((["Shigella", "Salmonella"]).map canonGenus) :=
  ⟨((genus_screener_encoding.2 ["Shigella", "Salmonella"]).2.2.1 (by decide)),
    ((genus_screener_encoding.2 ["Shigella", "Salmonella"]).2.2.2 (by decide))⟩

/-- Gene token of a contig identifier: `contig.split('_')[0]`
(src/alignment_confindr.py:531). -/
def geneOf (contig : String) : String := (pySplit '_' contig).getD 0 ""

/-- Allele token of a contig identifier: `contig.split('_')[1]`
(src/alignment_confindr.py:532). -/
def alleleOf (contig : String) : String := (pySplit '_' contig).getD 1 ""

/-- One iteration of the best-allele loop of `find_contamination`
(src/alignment_confindr.py:530-538): on first sight of a gene store the
contig's allele and read count; afterwards replace only when the new
contig's read count is strictly greater than the stored one. The
Python dict is modelled as a function to `Option`. -/
def bestStep (cnt : String → ℕ) (acc : String → Option (String × ℕ)) (contig : String) :
    String → Option (String × ℕ) :=
  let gene := geneOf contig
  let allele := alleleOf contig
  match acc gene with
  | none => fun g => if g = gene then some (allele, cnt contig) else acc g
  | some best =>
    let read_count := cnt contig
    if best.2 < read_count then
      fun g => if g = gene then some (allele, read_count) else acc g
    else acc

/-- The `gene_alleles_to_use` map built by `find_contamination`
(src/alignment_confindr.py:527-538) from the contig list and the
per-contig mapped-read counts. -/
def gene_alleles_to_use (contigs : List String) (cnt : String → ℕ) :
    String → Option (String × ℕ) :=
  contigs.foldl (bestStep cnt) (fun _ => none)

/-- The contigs of a given gene, in iteration order. -/
def geneContigs (g : String) (contigs : List String) : List String :=
  contigs.filter (fun c => geneOf c = g)

/-- The maximum read count over a list of contigs. -/
def maxReadCount (cnt : String → ℕ) : List String → ℕ
  | [] => 0
  | c :: rest => max (cnt c) (maxReadCount cnt rest)

/-- Specification-side selection: the first contig of the gene attaining
the maximal read count, paired with that count. -/
def firstBestAllele (g : String) (contigs : List String) (cnt : String → ℕ) :
    Option (String × ℕ) :=
  ((geneContigs g contigs).find?
      (fun c => cnt c == maxReadCount cnt (geneContigs g contigs))).map
    (fun c => (alleleOf c, cnt c))

theorem le_maxReadCount (cnt : String → ℕ) (l : List String) (x : String) (hx : x ∈ l) :
    cnt x ≤ maxReadCount cnt l := by
  induction l with
  | nil => simp at hx
  | cons c rest ih =>
    rcases List.mem_cons.mp hx with rfl | hx
    · exact le_max_left _ _
    · exact le_trans (ih hx) (le_max_right _ _)

theorem maxReadCount_attained (cnt : String → ℕ) (l : List String) (hl : l ≠ []) :
    ∃ x ∈ l, cnt x = maxReadCount cnt l := by
  induction l with
  | nil => exact absurd rfl hl
  | cons c rest ih =>
    cases rest with
    | nil => exact ⟨c, by simp, by simp [maxReadCount]⟩
    | cons c2 rest2 =>
      rcases ih (by simp) with ⟨x, hx, hmax⟩
      have hrec : maxReadCount cnt (c :: c2 :: rest2) =
          max (cnt c) (maxReadCount cnt (c2 :: rest2)) := rfl
      rcases le_total (maxReadCount cnt (c2 :: rest2)) (cnt c) with h | h
      · exact ⟨c, by simp, by rw [hrec, max_eq_left h]⟩
      · exact ⟨x, List.mem_cons_of_mem _ hx, by rw [hrec, max_eq_right h, hmax]⟩

theorem maxReadCount_append (cnt : String → ℕ) (l₁ l₂ : List String) :
    maxReadCount cnt (l₁ ++ l₂) = max (maxReadCount cnt l₁) (maxReadCount cnt l₂) := by
  induction l₁ with
  | nil => simp [maxReadCount]
  | cons c rest ih => simp [maxReadCount, ih, max_assoc]

theorem firstBestAllele_eq_none (g : String) (contigs : List String) (cnt : String → ℕ) :
    firstBestAllele g contigs cnt = none ↔ geneContigs g contigs = [] := by
  constructor
  · intro h
    by_contra hne
    rcases maxReadCount_attained cnt (geneContigs g contigs) hne with ⟨x, hx, hmax⟩
    have hsome : ((geneContigs g contigs).find?
        (fun c => cnt c == maxReadCount cnt (geneContigs g contigs))).isSome := by
      rw [List.find?_isSome]
      exact ⟨x, hx, by simp [hmax]⟩
    rcases Option.isSome_iff_exists.mp hsome with ⟨c, hc⟩
    simp [firstBestAllele, hc] at h
  · intro h
    simp [firstBestAllele, h]

/-- Stepping the loop preserves the first-max characterization. -/
theorem bestStep_firstBest (pre : List String) (cnt : String → ℕ) (c : String) :
    bestStep cnt (fun g => firstBestAllele g pre cnt) c =
      fun g => firstBestAllele g (pre ++ [c]) cnt := by
  funext g
  have hfilter : geneContigs g (pre ++ [c]) =
      geneContigs g pre ++ (if geneOf c = g then [c] else []) := by
    simp only [geneContigs, List.filter_append]
    congr 1
    by_cases h : geneOf c = g <;> simp [h]
  by_cases hg : g = geneOf c
  case neg =>
    have hsame : geneContigs g (pre ++ [c]) = geneContigs g pre := by
      rw [hfilter, if_neg (fun h => hg h.symm)]
      simp
    rcases hacc : firstBestAllele (geneOf c) pre cnt with _ | best
    · simp only [bestStep, hacc]
      rw [if_neg hg]
      simp [firstBestAllele, hsame]
    · simp only [bestStep, hacc]
      by_cases hlt : best.2 < cnt c
      · rw [if_pos hlt, if_neg hg]
        simp [firstBestAllele, hsame]
      · rw [if_neg hlt]
        simp [firstBestAllele, hsame]
  case pos =>
    subst hg
    have hfilter2 : geneContigs (geneOf c) (pre ++ [c]) =
        geneContigs (geneOf c) pre ++ [c] := by
      rw [hfilter, if_pos rfl]
    rcases hacc : firstBestAllele (geneOf c) pre cnt with _ | best
    · have hempty : geneContigs (geneOf c) pre = [] :=
        (firstBestAllele_eq_none (geneOf c) pre cnt).mp hacc
      simp only [bestStep, hacc]
      simp [firstBestAllele, hfilter2, hempty, maxReadCount, List.find?]
    · rcases Option.map_eq_some'.mp hacc with ⟨c0, hfind, hc0⟩
      have hc0max : cnt c0 = maxReadCount cnt (geneContigs (geneOf c) pre) := by
        have := List.find?_some hfind
        simpa using this
      have hbest2 : best.2 = maxReadCount cnt (geneContigs (geneOf c) pre) := by
        rw [← hc0, ← hc0max]
      simp only [bestStep, hacc]
      by_cases hlt : best.2 < cnt c
      · rw [if_pos hlt, if_pos rfl]
        have hmax : maxReadCount cnt (geneContigs (geneOf c) (pre ++ [c])) = cnt c := by
          rw [hfilter2, maxReadCount_append]
          simp only [maxReadCount]
          rw [← hbest2]
          omega
        have hnone : (geneContigs (geneOf c) pre).find? (fun x => cnt x == cnt c) = none := by
          rw [List.find?_eq_none]
          intro x hx
          have := le_maxReadCount cnt _ x hx
          rw [← hbest2] at this
          simp only [beq_iff_eq]
          omega
        rw [hfilter2] at hmax
        simp only [firstBestAllele, hfilter2, hmax, List.find?_append, hnone]
        simp [List.find?]
      · rw [if_neg hlt]
        have hmax : maxReadCount cnt (geneContigs (geneOf c) (pre ++ [c])) = best.2 := by
          rw [hfilter2, maxReadCount_append]
          simp only [maxReadCount]
          rw [← hbest2]
          omega
        rw [hfilter2] at hmax
        rw [← hbest2] at hfind
        simp only [firstBestAllele, hfilter2, hmax, List.find?_append, hfind]
        simp only [Option.or, Option.map_some', hc0]
        exact hacc

theorem foldl_firstBest (cnt : String → ℕ) (contigs : List String) :
    ∀ pre : List String,
      contigs.foldl (bestStep cnt) (fun g => firstBestAllele g pre cnt) =
        fun g => firstBestAllele g (pre ++ contigs) cnt := by
  induction contigs with
  | nil => intro pre; simp
  | cons c rest ih =>
    intro pre
    simp only [List.foldl_cons, bestStep_firstBest, ih (pre ++ [c])]
    simp

/-- C4: the best-allele map sends every gene to the first contig of that
gene (in iteration order) attaining the maximal read count — so the
first-seen allele is kept on ties, a strictly-later allele replaces it
only on a strictly greater count, and the result is a function of the
contig iteration order and the counts alone. -/
theorem best_allele_selection (contigs : List String) (cnt : String → ℕ) (g : String) :
    gene_alleles_to_use contigs cnt g = firstBestAllele g contigs cnt := by
  have hinit : (fun _ => none : String → Option (String × ℕ)) =
      fun g => firstBestAllele g [] cnt := by
    funext g
    simp [firstBestAllele, geneContigs]
  rw [gene_alleles_to_use, hinit, foldl_firstBest cnt contigs []]
  simp

example : gene_alleles_to_use ["BACT01_1", "BACT01_2", "BACT02_7"]
    (fun c => if c = "BACT01_2" then 5 else 3) "BACT01" = some ("2", 5) := by decide
example : gene_alleles_to_use ["BACT01_1", "BACT01_2", "BACT02_7"]
    (fun _ => 3) "BACT01" = some ("1", 3) := by decide

/-- `find_genusspecific_allele_list` (src/alignment_confindr.py:104-121),
modelled from the lines of the profiles file: the last matching line's
`genus:comma,separated,list` payload, split on `,` with the final chunk
dropped (`[:-1]`). -/
def find_genusspecific_allele_list (lines : List String) (target_genus : String) :
    List String :=
  lines.foldl
    (fun alleles line =>
      let line := pyRstrip line
      let genus := (pySplit ':' line).getD 0 ""
      if genus = target_genus then (pySplit ',' ((pySplit ':' line).getD 1 "")).dropLast
      else alleles) []

/-- `find_genusspecific_alleles` (src/alignment_confindr.py:83-101), the
exclusion-strategy parser: the last matching line's payload split on
`,`, kept in full. -/
def find_genusspecific_alleles (lines : List String) (target_genus : String) :
    List String :=
  lines.foldl
    (fun genes_to_exclude line =>
      let line := pyRstrip line
      let genus := (pySplit ':' line).getD 0 ""
      if genus = target_genus then pySplit ',' ((pySplit ':' line).getD 1 "")
      else genes_to_exclude) []

/-- `setup_allelespecific_database` (src/alignment_confindr.py:124-131),
modelled as the list of `(id, seq)` records written to the genus FASTA:
the combined reference's records whose identifier is whitelisted. -/
def setup_allelespecific_database (combined : List (String × String))
    (allele_list : List String) : List (String × String) :=
  combined.filter (fun item => item.1 ∈ allele_list)

/-- `setup_genusspecific_database` (src/alignment_confindr.py:133-146),
modelled as the records written: those whose gene token is not in the
exclusion list. -/
def setup_genusspecific_database (combined : List (String × String))
    (genes_to_exclude : List String) : List (String × String) :=
  combined.filter (fun item => geneOf item.1 ∉ genes_to_exclude)

/-- C5 counterexample: with a whitelist entry absent from the combined
reference, the round-trip does not return the whitelist — the claim is
false for arbitrary combined reference / table combinations. -/
theorem database_roundtrip_counterexample :
    ¬ (∀ x, x ∈ (setup_allelespecific_database [("A_1", "ACGT")]
        (find_genusspecific_allele_list ["G:B_2,"] "G")).map Prod.fst ↔
        x ∈ find_genusspecific_allele_list ["G:B_2,"] "G") := by
  intro h
  exact absurd ((h "B_2").mpr (by decide)) (by decide)

/-- C5, amended: the whitelist-strategy round trip returns exactly the
whitelisted identifiers *that occur in the combined reference* — hence
exactly the whitelist whenever every whitelisted identifier occurs in
the combined reference; the exclusion-strategy round trip returns, for
every input, exactly the combined records whose gene token is not
excluded. -/
theorem database_roundtrip (combined : List (String × String)) (lines : List String)
    (target_genus : String) :
    (∀ x, x ∈ (setup_allelespecific_database combined
        (find_genusspecific_allele_list lines target_genus)).map Prod.fst ↔
        (x ∈ combined.map Prod.fst ∧ x ∈ find_genusspecific_allele_list lines target_genus))
    ∧ ((∀ a ∈ find_genusspecific_allele_list lines target_genus, a ∈ combined.map Prod.fst) →
        ∀ x, x ∈ (setup_allelespecific_database combined
          (find_genusspecific_allele_list lines target_genus)).map Prod.fst ↔
          x ∈ find_genusspecific_allele_list lines target_genus)
    ∧ (∀ x, x ∈ (setup_genusspecific_database combined
        (find_genusspecific_alleles lines target_genus)).map Prod.fst ↔
        (x ∈ combined.map Prod.fst ∧
          geneOf x ∉ find_genusspecific_alleles lines target_genus)) := by
  have hwl : ∀ x, x ∈ (setup_allelespecific_database combined
      (find_genusspecific_allele_list lines target_genus)).map Prod.fst ↔
      (x ∈ combined.map Prod.fst ∧ x ∈ find_genusspecific_allele_list lines target_genus) := by
    intro x
    simp only [setup_allelespecific_database, List.mem_map, List.mem_filter, decide_eq_true_eq]
    constructor
    · rintro ⟨item, ⟨hmem, hin⟩, rfl⟩
      exact ⟨⟨item, hmem, rfl⟩, hin⟩
    · rintro ⟨⟨item, hmem, rfl⟩, hin⟩
      exact ⟨item, ⟨hmem, hin⟩, rfl⟩
  refine ⟨hwl, fun hsub x => ?_, fun x => ?_⟩
  · rw [hwl x]
    constructor
    · exact fun h => h.2
    · exact fun h => ⟨hsub x h, h⟩
  · simp only [setup_genusspecific_database, List.mem_map, List.mem_filter, decide_eq_true_eq]
    constructor
    · rintro ⟨item, ⟨hmem, hnot⟩, rfl⟩
      exact ⟨⟨item, hmem, rfl⟩, hnot⟩
    · rintro ⟨⟨item, hmem, rfl⟩, hnot⟩
      exact ⟨item, ⟨hmem, hnot⟩, rfl⟩

/-- Closed witness for the amended round-trip theorem: when the single
whitelisted identifier is present in the combined reference the
round trip reproduces the whitelist membership. -/
theorem database_roundtrip_witness :
    "B_2" ∈ (setup_allelespecific_database [("B_2", "ACGT")]
        (find_genusspecific_allele_list ["G:B_2,"] "G")).map Prod.fst ↔
      "B_2" ∈ find_genusspecific_allele_list ["G:B_2,"] "G" :=
  (database_roundtrip [("B_2", "ACGT")] ["G:B_2,"] "G").2.1 (by decide) "B_2"

/-- The fields of a self-alignment record consumed by `parse_bamfile`:
the CIGAR string (absent for unmapped records), the aligned query
length, and the reference sequence name. -/
structure BamRecord where
  cigarstring : Option String
  query_alignment_length : ℕ
  reference_name : String

/-- `parse_bamfile` (src/alignment_confindr.py:229-242): keep the
reference names of the records whose CIGAR string exists, contains the
substring `1X`, and whose aligned query length equals the k-mer size. -/
def parse_bamfile (records : List BamRecord) (kmer_size : ℕ) : List String :=
  records.foldl
    (fun mismatch_kmer_headers m =>
      match m.cigarstring with
      | none => mismatch_kmer_headers
      | some cg =>
        if pyIn "1X" cg = true ∧ m.query_alignment_length = kmer_size then
          mismatch_kmer_headers ++ [m.reference_name]
        else mismatch_kmer_headers) []

/-- CIGAR run-length decoding: accumulate a decimal count, emit
`(count, op)` at each non-digit operation character. -/
def cigarRunsAux : List Char → ℕ → List (ℕ × Char)
  | [], _ => []
  | c :: rest, cur =>
    if c.isDigit then cigarRunsAux rest (cur * 10 + (c.toNat - 48))
    else (cur, c) :: cigarRunsAux rest 0

/-- Number of mismatched bases a CIGAR string records: the total length
of its `X` runs. -/
def cigarMismatchBases (s : String) : ℕ :=
  (((cigarRunsAux s.data 0).filter (fun p => p.2 = 'X')).map Prod.fst).sum

/-- C7 / code bug: a full-length (31-base) self-alignment record whose
CIGAR `10=1X10=1X9=` records *two* mismatched bases is nevertheless
selected by `parse_bamfile`, because the code tests `'1X' in cigar` as a
substring instead of parsing the CIGAR — contradicting its stated
purpose of finding k-mers with exactly one mismatch. -/
theorem parse_bamfile_selects_two_mismatch_record :
    cigarMismatchBases "10=1X10=1X9=" = 2
    ∧ parse_bamfile
        [{ cigarstring := some "10=1X10=1X9=", query_alignment_length := 31,
           reference_name := "24_1" }] 31 = ["24_1"]
    ∧ cigarMismatchBases "20=11X" = 11
    ∧ parse_bamfile
        [{ cigarstring := some "20=11X", query_alignment_length := 31,
           reference_name := "9_2" }] 31 = ["9_2"] := by
  refine ⟨by decide, by decide, by decide, by decide⟩

theorem splitCharList_ne_nil (sep : Char) (l : List Char) : splitCharList sep l ≠ [] := by
  induction l with
  | nil => simp [splitCharList]
  | cons c rest ih =>
    simp only [splitCharList]
    by_cases h : c = sep
    · simp [h]
    · rw [if_neg h]
      rcases hr : splitCharList sep rest with _ | ⟨a, as⟩
      · exact absurd hr ih
      · simp

theorem length_splitCharList (sep : Char) (l : List Char) :
    (splitCharList sep l).length = l.count sep + 1 := by
  induction l with
  | nil => simp [splitCharList]
  | cons c rest ih =>
    simp only [splitCharList]
    by_cases h : c = sep
    · simp [h, List.count_cons, ih]
    · rw [if_neg h]
      rcases hr : splitCharList sep rest with _ | ⟨a, as⟩
      · exact absurd hr (splitCharList_ne_nil sep rest)
      · have := ih
        rw [hr] at this
        simp only [List.length_cons] at this ⊢
        have hcount : List.count sep (c :: rest) = List.count sep rest := by
          simp [List.count_cons, Ne.symm h]
        rw [hcount]
        omega

theorem infixB_singleton (s : Char) (l : List Char) :
    infixB [s] l = true ↔ s ∈ l := by
  induction l with
  | nil => simp [infixB]
  | cons c rest ih =>
    simp only [infixB, List.isPrefixOf, Bool.or_eq_true, ih]
    constructor
    · rintro (h | h)
      · simp only [Bool.and_eq_true, beq_iff_eq] at h
        exact h.1 ▸ List.mem_cons_self _ _
      · exact List.mem_cons_of_mem _ h
    · intro h
      rcases List.mem_cons.mp h with rfl | h
      · left
        simp [List.isPrefixOf]
      · right
        exact h

/-- The code's test `len(genus.split(':')) > 1` holds exactly when the
genus string contains a colon (Python `':' in genus`). -/
theorem colon_split_gt_one_iff (genus : String) :
    1 < (pySplit ':' genus).length ↔ pyIn ":" genus = true := by
  have h1 : (pySplit ':' genus).length = genus.data.count ':' + 1 := by
    simp [pySplit, length_splitCharList]
  have h2 : pyIn ":" genus = true ↔ ':' ∈ genus.data := by
    simpa [pyIn, String.data] using infixB_singleton ':' genus.data
  rw [h1, h2, ← List.count_pos_iff]
  omega

/-- One row of the contamination report, as the arguments that
`write_output` receives for the sample. -/
structure ReportRecord where
  sample_name : String
  genus : String
  snv_list : List ℕ
  max_kmers : ℕ
deriving DecidableEq, Inhabited, Repr

/-- The observable per-sample outcome of one `find_contamination` /
`find_contamination_unpaired` call: the report row it writes, whether
the post-screening analysis steps ran, and whether the sample's
temporary directory was removed. -/
structure SampleOutcome where
  report : ReportRecord
  analysis_ran : Bool
  tmpdir_removed : Bool
deriving DecidableEq, Repr

/-- Control-flow slice of `find_contamination`
(src/alignment_confindr.py:465-580) after the genus screen: on a
multi-genus call, write the `[0]` report with the joined genus string,
skip the analysis, and remove the temporary directory; otherwise run the
analysis (whose resulting multi-position count is a parameter, external
tools being out of model), write it as the single-entry evidence list,
and remove the temporary directory. -/
def find_contamination_flow (sample_name genus : String) (multi_positions : ℕ) :
    SampleOutcome :=
  if (pySplit ':' genus).length > 1 then
    { report := { sample_name := sample_name, genus := genus, snv_list := [0], max_kmers := 0 },
      analysis_ran := false, tmpdir_removed := true }
  else
    { report := { sample_name := sample_name, genus := genus,
                  snv_list := [multi_positions], max_kmers := 0 },
      analysis_ran := true, tmpdir_removed := true }

/-- Control-flow slice of `find_contamination_unpaired`
(src/alignment_confindr.py:685-819) after the genus screen; the
per-cycle evidence list and maximum k-mer count of the legacy path are
parameters. -/
def find_contamination_unpaired_flow (sample_name genus : String)
    (snv_list : List ℕ) (max_kmers : ℕ) : SampleOutcome :=
  if (pySplit ':' genus).length > 1 then
    { report := { sample_name := sample_name, genus := genus, snv_list := [0], max_kmers := 0 },
      analysis_ran := false, tmpdir_removed := true }
  else
    { report := { sample_name := sample_name, genus := genus,
                  snv_list := snv_list, max_kmers := max_kmers },
      analysis_ran := true, tmpdir_removed := true }

/-- C8: whenever the genus-screener result contains `:`, both per-sample
processing paths write a report row whose evidence list is exactly `[0]`
and whose genus field is the joined string, skip every further analysis
step, and remove the sample's temporary directory. -/
theorem cross_contamination_skips_analysis (sample_name genus : String)
    (h : pyIn ":" genus = true) (multi_positions : ℕ) (snv_list : List ℕ)
    (max_kmers : ℕ) :
    find_contamination_flow sample_name genus multi_positions =
      { report := { sample_name := sample_name, genus := genus, snv_list := [0],
                    max_kmers := 0 },
        analysis_ran := false, tmpdir_removed := true }
    ∧ find_contamination_unpaired_flow sample_name genus snv_list max_kmers =
      { report := { sample_name := sample_name, genus := genus, snv_list := [0],
                    max_kmers := 0 },
        analysis_ran := false, tmpdir_removed := true } := by
  have hsplit : 1 < (pySplit ':' genus).length := (colon_split_gt_one_iff genus).mpr h
  constructor
  · rw [find_contamination_flow, if_pos hsplit]
  · rw [find_contamination_unpaired_flow, if_pos hsplit]

/-- Closed witness for the cross-contamination skip theorem at the
concrete genus string `Escherichia:Salmonella`. -/
theorem cross_contamination_skips_analysis_witness :
    find_contamination_flow "sampleA" "Escherichia:Salmonella" 7 =
      { report := { sample_name := "sampleA", genus := "Escherichia:Salmonella",
                    snv_list := [0], max_kmers := 0 },
        analysis_ran := false, tmpdir_removed := true } :=
  (cross_contamination_skips_analysis "sampleA" "Escherichia:Salmonella"
    (by decide) 7 [3] 9).1

/-- One entry of the outer sample loop: the report row recorded for the
sample and whether its temporary directory was removed. -/
structure LoopEntry where
  report : ReportRecord
  tmpdir_removed : Bool
deriving DecidableEq, Inhabited, Repr

/-- The report row written for a sample whose processing raised an
external-tool failure (src/alignment_confindr.py:957-964). -/
def error_report (sample_name : String) : ReportRecord :=
  { sample_name := sample_name, genus := "Error processing sample",
    snv_list := [0], max_kmers := 0 }

/-- The `__main__` per-sample loop (src/alignment_confindr.py:949-967
and 969-987): each sample is processed in order; a sample whose
processing raises `subprocess.CalledProcessError` (modelled as
`Except.error`) is recorded with the error sentinel, `[0]` evidence and
zero k-mer count, its temporary directory is removed, and the loop
continues with the next sample. -/
def main_sample_loop (run : String → Except Unit ReportRecord) :
    List String → List LoopEntry
  | [] => []
  | sample :: rest =>
    (match run sample with
      | .ok r => { report := r, tmpdir_removed := true }
      | .error _ => { report := error_report sample, tmpdir_removed := true })
      :: main_sample_loop run rest

/-- C9: the outer loop records exactly one entry per sample (a partial
failure never aborts the batch), and every failing sample's entry is the
error-sentinel report with `[0]` evidence and zero k-mer count, its
temporary directory removed. -/
theorem failing_sample_isolated (samples : List String)
    (run : String → Except Unit ReportRecord) :
    (main_sample_loop run samples).length = samples.length
    ∧ ∀ i, i < samples.length → run (samples.getD i "") = .error () →
        (main_sample_loop run samples).getD i default =
          { report := error_report (samples.getD i ""), tmpdir_removed := true } := by
  induction samples with
  | nil => exact ⟨rfl, fun i hi => absurd hi (by simp)⟩
  | cons sample rest ih =>
    constructor
    · simp only [main_sample_loop, List.length_cons]
      exact congrArg (· + 1) ih.1
    · intro i hi herr
      cases i with
      | zero =>
        simp only [List.getD_cons_zero] at herr ⊢
        simp only [main_sample_loop, List.getD_cons_zero, herr]
      | succ j =>
        simp only [List.getD_cons_succ] at herr ⊢
        simp only [main_sample_loop, List.getD_cons_succ]
        exact ih.2 j (by simpa using hi) herr

/-- Closed witness for the failing-sample theorem: a batch of two
samples whose first raises is still fully reported, the first entry
being the error record. -/
theorem failing_sample_isolated_witness :
    (main_sample_loop
        (fun s => if s = "s1" then .error () else
          .ok { sample_name := s, genus := "Escherichia", snv_list := [1], max_kmers := 5 })
        ["s1", "s2"]).getD 0 default =
      { report := error_report "s1", tmpdir_removed := true } :=
  (failing_sample_isolated ["s1", "s2"]
    (fun s => if s = "s1" then .error () else
      .ok { sample_name := s, genus := "Escherichia", snv_list := [1], max_kmers := 5 })).2
    0 (by decide) rfl

/-- The four reference paths that the paired-read path of
`find_contamination` constructs (src/alignment_confindr.py:488-529):
the `sample_database` variable, the `samtools faidx` target (line 512),
the `bbmap.sh ref=` argument (line 515), and the FASTA handed to
`get_contig_names` (line 529). -/
structure PairedReferencePaths where
  sample_database : String
  faidx_reference : String
  mapping_reference : String
  contig_names_reference : String
deriving DecidableEq, Repr

/-- Path construction of the paired-read analysis: `sample_database`
follows the genus / `NA` branch, while the faidx, mapping and
contig-name steps always use `'{genus}_db.fasta'`. -/
def find_contamination_reference_paths (databases genus : String) :
    PairedReferencePaths :=
  { sample_database :=
      if genus ≠ "NA" then pyPathJoin databases (genus ++ "_db.fasta")
      else pyPathJoin databases "rMLST_combined.fasta",
    faidx_reference := pyPathJoin databases (genus ++ "_db.fasta"),
    mapping_reference := pyPathJoin databases (genus ++ "_db.fasta"),
    contig_names_reference := pyPathJoin databases (genus ++ "_db.fasta") }

/-- C10: for a paired sample whose genus call is `NA`, the code assigns
the combined reference to `sample_database` but builds the faidx,
mapping and contig-name reference path from the genus string, yielding
`<databases>/NA_db.fasta` — so the reference actually used for mapping
differs from the assigned `sample_database`. -/
theorem na_genus_uses_mismatched_reference (databases genus : String)
    (h : genus = "NA") :
    (find_contamination_reference_paths databases genus).sample_database =
      pyPathJoin databases "rMLST_combined.fasta"
    ∧ (find_contamination_reference_paths databases genus).faidx_reference =
      pyPathJoin databases "NA_db.fasta"
    ∧ (find_contamination_reference_paths databases genus).mapping_reference =
      pyPathJoin databases "NA_db.fasta"
    ∧ (find_contamination_reference_paths databases genus).contig_names_reference =
      pyPathJoin databases "NA_db.fasta"
    ∧ (find_contamination_reference_paths databases genus).mapping_reference ≠
      (find_contamination_reference_paths databases genus).sample_database := by
  subst h
  refine ⟨rfl, rfl, rfl, rfl, ?_⟩
  intro heq
  simp only [find_contamination_reference_paths, ne_eq, not_true_eq_false,
    if_false, pyPathJoin] at heq
  have hdata := congrArg String.data heq
  simp only [String.data_append] at hdata
  have := List.append_cancel_left hdata
  simp [String.data] at this

/-- Closed witness for the NA-reference theorem at a concrete databases
folder. -/
theorem na_genus_uses_mismatched_reference_witness :
    (find_contamination_reference_paths "dbs" "NA").mapping_reference ≠
      (find_contamination_reference_paths "dbs" "NA").sample_database :=
  (na_genus_uses_mismatched_reference "dbs" "NA" rfl).2.2.2.2

/-- The fields of one pysam pileup read used by `find_if_multibase`:
the alignment offset of the read at the column (None for deletions and
reference skips), the read's base sequence, and its quality scores. -/
structure PileupRead where
  query_position : Option ℕ
  query_sequence : List Char
  query_qualities : List ℕ

/-- The (base, quality) observation a read contributes at the column:
nothing when its alignment offset is undefined, otherwise the base and
quality at the offset (src/alignment_confindr.py:403-405). -/
def extractRead (read : PileupRead) : Option (Char × ℕ) :=
  read.query_position.map
    (fun qp => (read.query_sequence.getD qp '?', read.query_qualities.getD qp 0))

/-- Loop body of `has_two_high_quality_bases`
(src/alignment_confindr.py:374-388): count scores `>= 35`, returning
early once the count reaches 2. -/
def hqLoop (quality_bases_count : ℕ) : List ℕ → Bool
  | [] => false
  | score :: rest =>
    let c := if 35 ≤ score then quality_bases_count + 1 else quality_bases_count
    if 2 ≤ c then true else hqLoop c rest

/-- `has_two_high_quality_bases` (src/alignment_confindr.py:374-388). -/
def has_two_high_quality_bases (list_of_scores : List ℕ) : Bool :=
  hqLoop 0 list_of_scores

/-- The `base_qualities` dict update of `find_if_multibase`
(src/alignment_confindr.py:406-409): start a singleton list on first
sight of the base, append the quality afterwards. Python dicts are
modelled as insertion-ordered association lists. -/
def addQual (base_qualities : List (Char × List ℕ)) (base : Char) (quality : ℕ) :
    List (Char × List ℕ) :=
  if (base_qualities.lookup base).isSome = false then
    base_qualities ++ [(base, [quality])]
  else
    base_qualities.map (fun p => if p.1 = base then (p.1, p.2 ++ [quality]) else p)

/-- The `base_dict` count update of `find_if_multibase`
(src/alignment_confindr.py:410-413). -/
def addCount (base_dict : List (Char × ℕ)) (base : Char) : List (Char × ℕ) :=
  if (base_dict.lookup base).isSome then
    base_dict.map (fun p => if p.1 = base then (p.1, p.2 + 1) else p)
  else
    base_dict ++ [(base, 1)]

/-- One iteration of the read loop of `find_if_multibase`
(src/alignment_confindr.py:402-413): skip reads with an undefined
offset, otherwise update both dictionaries with the read's base and
quality at the column. -/
def pileupStep (st : List (Char × List ℕ) × List (Char × ℕ)) (read : PileupRead) :
    List (Char × List ℕ) × List (Char × ℕ) :=
  match read.query_position with
  | none => st
  | some qp =>
    let base := read.query_sequence.getD qp '?'
    let quality := read.query_qualities.getD qp 0
    (addQual st.1 base quality, addCount st.2 base)

/-- `find_if_multibase` (src/alignment_confindr.py:391-433): build the
per-base count and quality dictionaries (skipping reads with undefined
offsets), empty the count dict when only one distinct base was seen,
then empty it when some observed base lacks two quality-`>=35`
supporting reads; the position is multi-base iff the returned dict is
nonempty. -/
def find_if_multibase (column : List PileupRead) : List (Char × ℕ) :=
  let st := column.foldl pileupStep ([], [])
  let base_qualities := st.1
  let base_dict := st.2
  let appropriate_ratio : Bool := if base_dict.length = 1 then false else true
  let base_dict := if appropriate_ratio = false then [] else base_dict
  if base_dict.isEmpty = false then
    let high_quality_bases :=
      base_qualities.all (fun p => has_two_high_quality_bases p.2)
    if high_quality_bases = false then [] else base_dict
  else base_dict

/-- The stream of (base, quality) observations of a column, in read
order, ignoring reads with undefined offsets. -/
def columnObservations (column : List PileupRead) : List (Char × ℕ) :=
  column.filterMap extractRead

/-- The distinct observed bases of a column, in first-seen order. -/
def observedBases (column : List PileupRead) : List Char :=
  pyDedup ((columnObservations column).map Prod.fst)

/-- The quality scores supporting base `b`, in read order. -/
def qualsOf (b : Char) (obs : List (Char × ℕ)) : List ℕ :=
  (obs.filter (fun p => p.1 = b)).map Prod.snd

/-- Canonical form of the `base_qualities` association list. -/
def qualsAssoc (obs : List (Char × ℕ)) : List (Char × List ℕ) :=
  (pyDedup (obs.map Prod.fst)).map (fun b => (b, qualsOf b obs))

/-- Canonical form of the `base_dict` association list. -/
def countAssoc (obs : List (Char × ℕ)) : List (Char × ℕ) :=
  (pyDedup (obs.map Prod.fst)).map (fun b => (b, (qualsOf b obs).length))

example : find_if_multibase
    [⟨some 0, ['A'], [36]⟩, ⟨some 0, ['A'], [36]⟩,
     ⟨some 0, ['C'], [40]⟩, ⟨some 0, ['C'], [35]⟩] = [('A', 2), ('C', 2)] := by decide
example : find_if_multibase
    [⟨some 0, ['A'], [36]⟩, ⟨some 0, ['A'], [36]⟩,
     ⟨some 0, ['C'], [40]⟩, ⟨some 0, ['C'], [34]⟩] = [] := by decide
example : find_if_multibase
    [⟨some 0, ['A'], [36]⟩, ⟨some 0, ['A'], [36]⟩, ⟨some 0, ['A'], [40]⟩] = [] := by decide
example : find_if_multibase
    [⟨some 0, ['A'], [36]⟩, ⟨none, ['C'], [40]⟩] = [] := by decide
example : has_two_high_quality_bases [34, 35, 36] = true := by decide
example : has_two_high_quality_bases [34, 35, 34] = false := by decide

theorem hqLoop_iff (l : List ℕ) :
    ∀ c : ℕ, hqLoop c l = true ↔ (l ≠ [] ∧ 2 ≤ c + l.countP (fun s => 35 ≤ s)) := by
  induction l with
  | nil => intro c; simp [hqLoop]
  | cons score rest ih =>
    intro c
    have hcnt : (score :: rest).countP (fun s => 35 ≤ s) =
        rest.countP (fun s => 35 ≤ s) + (if 35 ≤ score then 1 else 0) := by
      rw [List.countP_cons]
      by_cases hs : 35 ≤ score <;> simp [hs]
    simp only [hqLoop]
    by_cases hs : 35 ≤ score
    · rw [if_pos hs]
      by_cases h2 : 2 ≤ c + 1
      · rw [if_pos h2]
        simp only [true_iff]
        refine ⟨by simp, ?_⟩
        rw [hcnt, if_pos hs]
        omega
      · rw [if_neg h2, ih (c + 1), hcnt, if_pos hs]
        constructor
        · rintro ⟨hne, h⟩
          exact ⟨by simp, by omega⟩
        · rintro ⟨_, h⟩
          refine ⟨?_, by omega⟩
          intro hnil
          subst hnil
          simp only [List.countP_nil] at h
          omega
    · rw [if_neg hs]
      by_cases h2 : 2 ≤ c
      · rw [if_pos h2]
        simp only [true_iff]
        exact ⟨by simp, by omega⟩
      · rw [if_neg h2, ih c, hcnt, if_neg hs]
        constructor
        · rintro ⟨hne, h⟩
          exact ⟨by simp, by omega⟩
        · rintro ⟨_, h⟩
          refine ⟨?_, by omega⟩
          intro hnil
          subst hnil
          simp only [List.countP_nil] at h
          omega

theorem has_two_high_quality_bases_iff (l : List ℕ) :
    has_two_high_quality_bases l = true ↔ 2 ≤ l.countP (fun s => 35 ≤ s) := by
  rw [has_two_high_quality_bases, hqLoop_iff l 0]
  constructor
  · rintro ⟨_, h⟩
    omega
  · intro h
    refine ⟨?_, by omega⟩
    intro hnil
    rw [hnil] at h
    simp at h

/-- Looking a key up in a canonical association list built over a key
list returns the tabulated value exactly for listed keys. -/
theorem lookup_tabulate {β : Type} (f : Char → β) (keys : List Char) (b : Char) :
    (keys.map (fun k => (k, f k))).lookup b =
      if b ∈ keys then some (f b) else none := by
  induction keys with
  | nil => simp
  | cons k ks ih =>
    by_cases hb : b = k
    · subst hb
      simp [List.lookup]
    · have hbeq : (b == k) = false := by simpa using hb
      simp only [List.map_cons, List.lookup, hbeq, ih]
      by_cases hmem : b ∈ ks
      · simp [hmem, hb]
      · simp [hmem, hb]

theorem mem_pyDedup {α : Type} [DecidableEq α] (l : List α) (x : α) :
    x ∈ pyDedup l ↔ x ∈ l := by
  have := mem_dedup_fold l [] x
  simpa [pyDedup] using this

theorem pyDedup_concat {α : Type} [DecidableEq α] (l : List α) (x : α) :
    pyDedup (l ++ [x]) =
      if x ∈ pyDedup l then pyDedup l else pyDedup l ++ [x] := by
  simp only [pyDedup, List.foldl_append, List.foldl_cons, List.foldl_nil]

theorem qualsOf_concat (k b : Char) (q : ℕ) (obs : List (Char × ℕ)) :
    qualsOf k (obs ++ [(b, q)]) =
      qualsOf k obs ++ (if b = k then [q] else []) := by
  simp only [qualsOf, List.filter_append, List.map_append]
  congr 1
  by_cases hb : b = k
  · simp [hb]
  · simp [hb]

theorem qualsOf_eq_nil (b : Char) (obs : List (Char × ℕ))
    (hb : b ∉ obs.map Prod.fst) : qualsOf b obs = [] := by
  simp only [qualsOf, List.map_eq_nil_iff]
  rw [List.filter_eq_nil_iff]
  intro p hp
  simp only [decide_eq_true_eq]
  intro hfst
  exact hb (List.mem_map.mpr ⟨p, hp, hfst⟩)

/-- Updating the canonical `base_qualities` association with one more
observation yields the canonical association of the extended stream. -/
theorem addQual_canonical (obs : List (Char × ℕ)) (b : Char) (q : ℕ) :
    addQual (qualsAssoc obs) b q = qualsAssoc (obs ++ [(b, q)]) := by
  have hkeys : (obs ++ [(b, q)]).map Prod.fst = obs.map Prod.fst ++ [b] := by simp
  have hlookup : (qualsAssoc obs).lookup b =
      if b ∈ pyDedup (obs.map Prod.fst) then some (qualsOf b obs) else none :=
    lookup_tabulate _ _ b
  by_cases hb : b ∈ pyDedup (obs.map Prod.fst)
  · have hdd : pyDedup ((obs ++ [(b, q)]).map Prod.fst) = pyDedup (obs.map Prod.fst) := by
      rw [hkeys, pyDedup_concat, if_pos hb]
    rw [addQual, hlookup, if_pos hb, if_neg (by simp)]
    rw [qualsAssoc, qualsAssoc, hdd, List.map_map]
    apply List.map_congr_left
    intro k hk
    by_cases hkb : k = b
    · subst hkb
      simp [Function.comp, qualsOf_concat]
    · have hbk : ¬ b = k := fun h => hkb h.symm
      simp [Function.comp, qualsOf_concat, hkb, hbk]
  · have hdd : pyDedup ((obs ++ [(b, q)]).map Prod.fst) =
        pyDedup (obs.map Prod.fst) ++ [b] := by
      rw [hkeys, pyDedup_concat, if_neg hb]
    rw [addQual, hlookup, if_neg hb, if_pos (by simp)]
    rw [qualsAssoc, qualsAssoc, hdd, List.map_append]
    congr 1
    · apply List.map_congr_left
      intro k hk
      have hbk : ¬ b = k := fun h => hb (h ▸ hk)
      simp [qualsOf_concat, hbk]
    · have hnil : qualsOf b obs = [] :=
        qualsOf_eq_nil b obs (fun h => hb ((mem_pyDedup _ _).mpr h))
      simp [qualsOf_concat, hnil]

/-- Updating the canonical `base_dict` association with one more
observation yields the canonical association of the extended stream. -/
theorem addCount_canonical (obs : List (Char × ℕ)) (b : Char) (q : ℕ) :
    addCount (countAssoc obs) b = countAssoc (obs ++ [(b, q)]) := by
  have hkeys : (obs ++ [(b, q)]).map Prod.fst = obs.map Prod.fst ++ [b] := by simp
  have hlookup : (countAssoc obs).lookup b =
      if b ∈ pyDedup (obs.map Prod.fst) then some ((qualsOf b obs).length) else none :=
    lookup_tabulate _ _ b
  by_cases hb : b ∈ pyDedup (obs.map Prod.fst)
  · have hdd : pyDedup ((obs ++ [(b, q)]).map Prod.fst) = pyDedup (obs.map Prod.fst) := by
      rw [hkeys, pyDedup_concat, if_pos hb]
    rw [addCount, hlookup, if_pos hb, if_pos (by simp)]
    rw [countAssoc, countAssoc, hdd, List.map_map]
    apply List.map_congr_left
    intro k hk
    by_cases hkb : k = b
    · subst hkb
      simp [Function.comp, qualsOf_concat]
    · have hbk : ¬ b = k := fun h => hkb h.symm
      simp [Function.comp, qualsOf_concat, hkb, hbk]
  · have hdd : pyDedup ((obs ++ [(b, q)]).map Prod.fst) =
        pyDedup (obs.map Prod.fst) ++ [b] := by
      rw [hkeys, pyDedup_concat, if_neg hb]
    rw [addCount, hlookup, if_neg hb, if_neg (by simp)]
    rw [countAssoc, countAssoc, hdd, List.map_append]
    congr 1
    · apply List.map_congr_left
      intro k hk
      have hbk : ¬ b = k := fun h => hb (h ▸ hk)
      simp [qualsOf_concat, hbk]
    · have hnil : qualsOf b obs = [] :=
        qualsOf_eq_nil b obs (fun h => hb ((mem_pyDedup _ _).mpr h))
      simp [qualsOf_concat, hnil]

/-- Folding the read loop equals folding the observation stream. -/
theorem foldl_pileupStep (column : List PileupRead) :
    ∀ init, column.foldl pileupStep init =
      (columnObservations column).foldl
        (fun st o => (addQual st.1 o.1 o.2, addCount st.2 o.1)) init := by
  induction column with
  | nil => intro init; simp [columnObservations]
  | cons read rest ih =>
    intro init
    rcases hqp : read.query_position with _ | qp
    · simp only [List.foldl_cons, columnObservations, List.filterMap_cons, extractRead, hqp,
        Option.map_none']
      rw [show pileupStep init read = init by simp [pileupStep, hqp]]
      exact ih init
    · simp only [List.foldl_cons, columnObservations, List.filterMap_cons, extractRead, hqp,
        Option.map_some']
      rw [show pileupStep init read =
        (addQual init.1 (read.query_sequence.getD qp '?') (read.query_qualities.getD qp 0),
         addCount init.2 (read.query_sequence.getD qp '?')) by simp [pileupStep, hqp]]
      exact ih _

/-- Folding the observation stream from a canonical state stays
canonical. -/
theorem foldl_obs_canonical (tail : List (Char × ℕ)) :
    ∀ pre, tail.foldl (fun st o => (addQual st.1 o.1 o.2, addCount st.2 o.1))
        (qualsAssoc pre, countAssoc pre) =
      (qualsAssoc (pre ++ tail), countAssoc (pre ++ tail)) := by
  induction tail with
  | nil => intro pre; simp
  | cons o rest ih =>
    intro pre
    simp only [List.foldl_cons]
    rw [show (addQual (qualsAssoc pre) o.1 o.2, addCount (countAssoc pre) o.1) =
        (qualsAssoc (pre ++ [(o.1, o.2)]), countAssoc (pre ++ [(o.1, o.2)])) by
      rw [addQual_canonical, addCount_canonical]]
    rw [ih (pre ++ [(o.1, o.2)])]
    simp

/-- The dictionaries built by `find_if_multibase`'s read loop are the
canonical per-base quality and count associations of the column. -/
theorem find_if_multibase_state (column : List PileupRead) :
    column.foldl pileupStep ([], []) =
      (qualsAssoc (columnObservations column), countAssoc (columnObservations column)) := by
  rw [foldl_pileupStep]
  have h := foldl_obs_canonical (columnObservations column) []
  simpa using h

/-- C1: a pileup column is flagged multi-base exactly when — ignoring
reads with an undefined alignment offset — at least two distinct bases
are observed and every distinct observed base has at least two
supporting reads of quality `>= 35`; in particular a column with fewer
than two distinct bases is never flagged. -/
theorem find_if_multibase_iff (column : List PileupRead) :
    find_if_multibase column ≠ [] ↔
      (2 ≤ (observedBases column).length
        ∧ ∀ b ∈ observedBases column,
            2 ≤ (qualsOf b (columnObservations column)).countP (fun q => 35 ≤ q)) := by
  have hstate := find_if_multibase_state column
  set obs := columnObservations column with hobs
  have hobskeys : observedBases column = pyDedup (obs.map Prod.fst) := rfl
  set keys := pyDedup (obs.map Prod.fst) with hk
  have hcountlen : (countAssoc obs).length = keys.length := by
    simp [countAssoc]
  have hallmap : ∀ (ks : List Char) (f : Char → Char × List ℕ) (p : Char × List ℕ → Bool),
      (ks.map f).all p = ks.all (fun x => p (f x)) := by
    intro ks f p
    induction ks with
    | nil => rfl
    | cons a l ih => simp [List.all_cons, ih]
  have hqall : ((qualsAssoc obs).all (fun p => has_two_high_quality_bases p.2)) =
      keys.all (fun k => has_two_high_quality_bases (qualsOf k obs)) := by
    rw [qualsAssoc, hallmap]
  rw [hobskeys]
  by_cases h1 : (countAssoc obs).length = 1
  · have hred : find_if_multibase column = [] := by
      simp [find_if_multibase, hstate, h1]
    have hklen : keys.length = 1 := by rw [← hcountlen]; exact h1
    rw [hred]
    simp [hklen]
  · by_cases h0 : countAssoc obs = []
    · have hred : find_if_multibase column = [] := by
        simp [find_if_multibase, hstate, h1, h0]
      have hk0 : keys = [] := by
        have := hcountlen
        rw [h0] at this
        simpa using this.symm
      rw [hred]
      simp [hk0]
    · have hie : (countAssoc obs).isEmpty = false := by
        simp [List.isEmpty_iff, h0]
      by_cases hall : keys.all (fun k => has_two_high_quality_bases (qualsOf k obs)) = true
      · have hred : find_if_multibase column = countAssoc obs := by
          simp [find_if_multibase, hstate, h1, hie, hqall, hall]
        rw [hred]
        have hlen2 : 2 ≤ keys.length := by
          have hpos : 0 < (countAssoc obs).length := List.length_pos.mpr h0
          omega
        refine iff_of_true h0 ⟨hlen2, fun b hb => ?_⟩
        have := (List.all_eq_true.mp hall) b hb
        exact (has_two_high_quality_bases_iff _).mp (by simpa using this)
      · have hall2 : keys.all (fun k => has_two_high_quality_bases (qualsOf k obs)) = false :=
          Bool.eq_false_iff.mpr hall
        have hred : find_if_multibase column = [] := by
          simp [find_if_multibase, hstate, h1, hie, hqall, hall2]
        rw [hred]
        refine iff_of_false (by simp) ?_
        rintro ⟨hlen2, hforall⟩
        rcases List.all_eq_false.mp hall2 with ⟨b, hb, hbf⟩
        exact hbf ((has_two_high_quality_bases_iff _).mpr (hforall b hb))

/-- Closed witness for the multi-base characterization at a concrete
four-read column with two distinct, twice-supported high-quality
bases. -/
theorem find_if_multibase_iff_witness :
    find_if_multibase
      [⟨some 0, ['A'], [36]⟩, ⟨some 0, ['A'], [36]⟩,
       ⟨some 0, ['C'], [40]⟩, ⟨some 0, ['C'], [35]⟩] ≠ [] :=
  (find_if_multibase_iff
    [⟨some 0, ['A'], [36]⟩, ⟨some 0, ['A'], [36]⟩,
     ⟨some 0, ['C'], [40]⟩, ⟨some 0, ['C'], [35]⟩]).mpr (by decide)

/-- A quality lowering of a pileup read: same alignment offset and base
sequence, each quality score lowered or kept. -/
def QualityLowering (lowered original : PileupRead) : Prop :=
  lowered.query_position = original.query_position ∧
  lowered.query_sequence = original.query_sequence ∧
  List.Forall₂ (· ≤ ·) lowered.query_qualities original.query_qualities

theorem getD_mono_of_forall₂ (l' l : List ℕ) (h : List.Forall₂ (· ≤ ·) l' l) :
    ∀ i, l'.getD i 0 ≤ l.getD i 0 := by
  induction h with
  | nil => intro i; simp
  | cons hab htail ih =>
    intro i
    cases i with
    | zero => simpa using hab
    | succ j => simpa using ih j

/-- A columnwise quality lowering induces, on the observation streams,
equal bases with pointwise lower qualities. -/
theorem observations_of_lowering (lowered column : List PileupRead)
    (h : List.Forall₂ QualityLowering lowered column) :
    List.Forall₂ (fun o' o => o'.1 = o.1 ∧ o'.2 ≤ o.2)
      (columnObservations lowered) (columnObservations column) := by
  induction h with
  | nil => simp [columnObservations]
  | cons hab htail ih =>
    rename_i r' r rest' rest
    obtain ⟨hqp, hseq, hquals⟩ := hab
    simp only [columnObservations, List.filterMap_cons]
    rcases hqp2 : r.query_position with _ | qp
    · rw [show extractRead r' = none by simp [extractRead, hqp, hqp2]]
      rw [show extractRead r = none by simp [extractRead, hqp2]]
      exact ih
    · rw [show extractRead r' =
          some (r.query_sequence.getD qp '?', r'.query_qualities.getD qp 0) by
        simp [extractRead, hqp, hqp2, hseq]]
      rw [show extractRead r =
          some (r.query_sequence.getD qp '?', r.query_qualities.getD qp 0) by
        simp [extractRead, hqp2]]
      exact List.Forall₂.cons ⟨rfl, getD_mono_of_forall₂ _ _ hquals qp⟩ ih

theorem map_fst_of_obs_rel (obs' obs : List (Char × ℕ))
    (h : List.Forall₂ (fun o' o => o'.1 = o.1 ∧ o'.2 ≤ o.2) obs' obs) :
    obs'.map Prod.fst = obs.map Prod.fst := by
  induction h with
  | nil => rfl
  | cons hab htail ih =>
    simp only [List.map_cons, ih, hab.1]

theorem qualsOf_of_obs_rel (obs' obs : List (Char × ℕ))
    (h : List.Forall₂ (fun o' o => o'.1 = o.1 ∧ o'.2 ≤ o.2) obs' obs) (b : Char) :
    List.Forall₂ (· ≤ ·) (qualsOf b obs') (qualsOf b obs) := by
  induction h with
  | nil => simp [qualsOf]
  | cons hab htail ih =>
    rename_i o' o rest' rest
    simp only [qualsOf, List.filter_cons] at ih ⊢
    by_cases hb : o.1 = b
    · rw [if_pos (by simp [hab.1, hb]), if_pos (by simp [hb])]
      simp only [List.map_cons]
      exact List.Forall₂.cons hab.2 ih
    · rw [if_neg (by simp [hab.1, hb]), if_neg (by simp [hb])]
      exact ih

theorem countP_mono_of_forall₂ (l' l : List ℕ) (h : List.Forall₂ (· ≤ ·) l' l) :
    l'.countP (fun q => 35 ≤ q) ≤ l.countP (fun q => 35 ≤ q) := by
  induction h with
  | nil => simp
  | cons hab htail ih =>
    rename_i a' a rest' rest
    rw [List.countP_cons, List.countP_cons]
    by_cases ha : 35 ≤ a'
    · have haa : 35 ≤ a := le_trans ha hab
      simp [ha, haa]
      omega
    · by_cases hb2 : 35 ≤ a
      · simp [ha, hb2]
        omega
      · simp [ha, hb2]
        omega

/-- C6: the heterozygosity rule is monotone in quality — if a column
remains flagged after its quality scores are (pointwise) lowered, it was
flagged with the original scores; hence lowering scores can only turn a
flagged column unflagged, never an unflagged column flagged. -/
theorem multibase_monotone_in_quality (lowered column : List PileupRead)
    (h : List.Forall₂ QualityLowering lowered column)
    (hflag : find_if_multibase lowered ≠ []) :
    find_if_multibase column ≠ [] := by
  rw [find_if_multibase_iff] at hflag ⊢
  obtain ⟨hlen, hquals⟩ := hflag
  have hobs := observations_of_lowering lowered column h
  have hfst : (columnObservations lowered).map Prod.fst =
      (columnObservations column).map Prod.fst := map_fst_of_obs_rel _ _ hobs
  have hbases : observedBases lowered = observedBases column := by
    simp [observedBases, hfst]
  constructor
  · rw [← hbases]
    exact hlen
  · intro b hb
    have h1 := hquals b (by rw [hbases]; exact hb)
    have h2 := countP_mono_of_forall₂ _ _ (qualsOf_of_obs_rel _ _ hobs b)
    omega

/-- Closed witness for the monotonicity theorem: a column flagged at
quality 36 stays flagged when the scores are raised back to 40. -/
theorem multibase_monotone_in_quality_witness :
    find_if_multibase
      [⟨some 0, ['A'], [40]⟩, ⟨some 0, ['A'], [40]⟩,
       ⟨some 0, ['C'], [40]⟩, ⟨some 0, ['C'], [40]⟩] ≠ [] :=
  multibase_monotone_in_quality
    [⟨some 0, ['A'], [36]⟩, ⟨some 0, ['A'], [36]⟩,
     ⟨some 0, ['C'], [36]⟩, ⟨some 0, ['C'], [36]⟩]
    [⟨some 0, ['A'], [40]⟩, ⟨some 0, ['A'], [40]⟩,
     ⟨some 0, ['C'], [40]⟩, ⟨some 0, ['C'], [40]⟩]
    (by
      refine List.Forall₂.cons ⟨rfl, rfl, ?_⟩
        (List.Forall₂.cons ⟨rfl, rfl, ?_⟩
          (List.Forall₂.cons ⟨rfl, rfl, ?_⟩
            (List.Forall₂.cons ⟨rfl, rfl, ?_⟩ List.Forall₂.nil))) <;>
        exact List.Forall₂.cons (by omega) List.Forall₂.nil)
    (by decide)

example : write_output_contaminated [0, 0, 0] "Escherichia" 0 = false := by decide
example : write_output_contaminated [3, 3, 3] "Escherichia" 0 = true := by decide
example : write_output_contaminated [0] "Escherichia:Salmonella" 0 = true := by decide
example : write_output_contaminated [0, 0, 0] "Escherichia" 50000 = true := by decide
example : find_cross_contamination ["Escherichia", "Salmonella", "Escherichia"] =
    "Escherichia:Salmonella" := by decide
example : find_cross_contamination ["Shigella"] = "Escherichia" := by decide
example : find_cross_contamination [] = "NA" := by decide

end ConFindr
